import Mathlib

/-!
Verification of the RemovePictureWatermark inverse-alpha-blend program
(src/main.cpp) against its specification.

Modelling conventions:
* uint8_t channel values are natural numbers; the implicit C++ conversion
  from int to uint8_t is modelled by reduction modulo 256 (Int.emod).
* float arithmetic is modelled by exact rational arithmetic over the
  rationals.  Division by zero yields 0 in this model; the source produces
  non-finite float values there, which std::clamp maps to 0 exactly when
  the numerator is negative, so concrete evaluations at alpha = 0 are only
  stated at inputs whose per-channel numerators are negative, where the
  two semantics agree.
* the float-to-uint8_t narrowing that stores a clamped value in a Pixel
  channel truncates toward zero; on the clamped range [0, 255] this is
  Int.floor followed by Int.toNat.
* the raw encoded byte vector (WebPImage.data) and all file and WebP
  codec I/O are outside the verified core and are omitted.
-/

/-- Pixel from src/main.cpp (lines 11-25): an RGB triple of 8-bit channel
intensities, each defaulting to 0; equality is component-wise. -/
structure Pixel where
  r : ℕ := 0
  g : ℕ := 0
  b : ℕ := 0
  deriving DecidableEq, Repr

/-- WHITE constant from src/main.cpp (line 29). -/
def WHITE : Pixel := { r := 255, g := 255, b := 255 }

/-- BLACK constant from src/main.cpp (line 30): the mask value that means
the pixel was not overlaid. -/
def BLACK : Pixel := { r := 0, g := 0, b := 0 }

/-- WebPImage from src/main.cpp (lines 33-54): a flat row-major pixel
sequence together with its dimensions.  The raw encoded byte vector
(field data) is I/O-only and omitted from the model. -/
structure WebPImage where
  pixels : List Pixel := []
  width : ℕ := 0
  height : ℕ := 0
  deriving DecidableEq, Repr

/-- get_pixel from src/main.cpp (lines 41-46): returns the value-initialised
pixel (0,0,0) when x > width or y > height (note the off-by-one: equality
passes the check), and otherwise reads linear index y * width + x.  The
source indexes the vector unchecked there; the model totalises that read
with List.getD. -/
def WebPImage.get_pixel (img : WebPImage) (x y : ℕ) : Pixel :=
  if x > img.width then {} else
  if y > img.height then {} else
  img.pixels.getD (y * img.width + x) {}

/-- set_pixel from src/main.cpp (lines 48-53): silently drops the write when
x > width or y > height (same off-by-one check), and otherwise writes at
linear index y * width + x.  List.set is likewise a no-op past the end of
the list. -/
def WebPImage.set_pixel (img : WebPImage) (x y : ℕ) (p : Pixel) : WebPImage :=
  if x > img.width then img else
  if y > img.height then img else
  { img with pixels := img.pixels.set (y * img.width + x) p }

/-- std::clamp(v, lo, hi) as used in src/main.cpp line 203:
v < lo gives lo, hi < v gives hi, otherwise v. -/
def stdClamp (v lo hi : ℚ) : ℚ :=
  if v < lo then lo else if hi < v then hi else v

namespace Unblend

/-- Eq lambda from src/main.cpp (lines 197-204): the per-channel inverse
blend (c_final - c_overlay * (1 - alpha)) / alpha, clamped to [0, 255],
in exact rational arithmetic standing for float arithmetic. -/
def Eq (c_final : ℕ) (alpha : ℚ) (c_overlay : ℕ) : ℚ :=
  stdClamp (((c_final : ℚ) - (c_overlay : ℚ) * (1 - alpha)) / alpha) 0 255

end Unblend

/-- Narrowing of the clamped float result to a uint8_t channel
(the assignments in src/main.cpp lines 215-217): truncation toward zero,
which on the clamped nonnegative range is floor. -/
def toByte (q : ℚ) : ℕ := (⌊q⌋).toNat

/-- Body of the masked branch of the loop in src/main.cpp (lines 213-217):
the recovered pixel computed from the composite pixel at (x, y).  The int
overlay channels pass through the implicit int-to-uint8_t conversion,
i.e. reduction modulo 256. -/
def unblendedPixel (image : WebPImage) (alpha : ℚ)
    (overlay_r overlay_g overlay_b : ℤ) (x y : ℕ) : Pixel :=
  let c_f := image.get_pixel x y
  { r := toByte (Unblend.Eq c_f.r alpha (overlay_r % 256).toNat),
    g := toByte (Unblend.Eq c_f.g alpha (overlay_g % 256).toNat),
    b := toByte (Unblend.Eq c_f.b alpha (overlay_b % 256).toNat) }

/-- One iteration of the inner loop body in src/main.cpp (lines 210-218):
skip when the mask pixel is pure black, otherwise overwrite (x, y) of the
recovered buffer with the unblended pixel. -/
def unblendStep (image mask : WebPImage) (alpha : ℚ)
    (overlay_r overlay_g overlay_b : ℤ) (y : ℕ)
    (recovered : WebPImage) (x : ℕ) : WebPImage :=
  if mask.get_pixel x y = BLACK then recovered
  else recovered.set_pixel x y
    (unblendedPixel image alpha overlay_r overlay_g overlay_b x y)

/-- The unblend pass of main in src/main.cpp (lines 195-220): recovered
starts as a copy of the composite image, then the nested loops over
y < height and x < width apply unblendStep in row-major order. -/
def unblend (image mask : WebPImage) (alpha : ℚ)
    (overlay_r overlay_g overlay_b : ℤ) : WebPImage :=
  (List.range image.height).foldl
    (fun recovered y =>
      (List.range image.width).foldl
        (unblendStep image mask alpha overlay_r overlay_g overlay_b y)
        recovered)
    image

/-- Per-pixel reading of the loop body: what one coordinate receives,
stated as a pure function of the composite and mask pixels at that
coordinate.  The fold in unblend is proved to agree with this pointwise
description. -/
def recoverPixel (image mask : WebPImage) (alpha : ℚ)
    (overlay_r overlay_g overlay_b : ℤ) (x y : ℕ) : Pixel :=
  if mask.get_pixel x y = BLACK then image.get_pixel x y
  else unblendedPixel image alpha overlay_r overlay_g overlay_b x y

/-- Modelled from the spec: the forward blend of one channel,
F_c = O_c * alpha + V_c * (1 - alpha), clamped and rounded to 8 bits.
The repository contains no forward-blend code; this definition follows
the round-trip property wording of the spec. -/
def compositeChannel (o v : ℕ) (alpha : ℚ) : ℕ :=
  (round (stdClamp ((o : ℚ) * alpha + (v : ℚ) * (1 - alpha)) 0 255)).toNat

/-- Modelled from the spec: the forward blend of a whole buffer against a
solid overlay color, applied to every pixel. -/
def compositeBuffer (o : WebPImage) (v : Pixel) (alpha : ℚ) : WebPImage :=
  { o with pixels := o.pixels.map (fun p =>
      { r := compositeChannel p.r v.r alpha,
        g := compositeChannel p.g v.g alpha,
        b := compositeChannel p.b v.b alpha }) }

/-- Componentwise closeness of two pixels to within one intensity step,
the tolerance the spec allows the round-trip property. -/
def withinOne (p q : Pixel) : Prop :=
  |(p.r : ℤ) - (q.r : ℤ)| ≤ 1 ∧ |(p.g : ℤ) - (q.g : ℤ)| ≤ 1 ∧
    |(p.b : ℤ) - (q.b : ℤ)| ≤ 1

instance (p q : Pixel) : Decidable (withinOne p q) := by
  unfold withinOne
  infer_instance

/-! Basic facts about the accessors. -/

theorem set_pixel_width (img : WebPImage) (x y : ℕ) (p : Pixel) :
    (img.set_pixel x y p).width = img.width := by
  unfold WebPImage.set_pixel
  split
  · rfl
  · split <;> rfl

theorem set_pixel_height (img : WebPImage) (x y : ℕ) (p : Pixel) :
    (img.set_pixel x y p).height = img.height := by
  unfold WebPImage.set_pixel
  split
  · rfl
  · split <;> rfl

theorem set_pixel_length (img : WebPImage) (x y : ℕ) (p : Pixel) :
    (img.set_pixel x y p).pixels.length = img.pixels.length := by
  unfold WebPImage.set_pixel
  split
  · rfl
  · split
    · rfl
    · exact List.length_set img.pixels _ p

theorem get_pixel_of_le (img : WebPImage) {x y : ℕ}
    (hx : x ≤ img.width) (hy : y ≤ img.height) :
    img.get_pixel x y = img.pixels.getD (y * img.width + x) {} := by
  unfold WebPImage.get_pixel
  rw [if_neg (Nat.not_lt.mpr hx), if_neg (Nat.not_lt.mpr hy)]

theorem get_pixel_of_oob (img : WebPImage) {x y : ℕ}
    (h : x > img.width ∨ y > img.height) :
    img.get_pixel x y = { r := 0, g := 0, b := 0 } := by
  unfold WebPImage.get_pixel
  rcases h with h | h
  · rw [if_pos h]
  · by_cases hx : x > img.width
    · rw [if_pos hx]
    · rw [if_neg hx, if_pos h]

theorem set_pixel_of_le (img : WebPImage) {x y : ℕ} (p : Pixel)
    (hx : x ≤ img.width) (hy : y ≤ img.height) :
    (img.set_pixel x y p).pixels = img.pixels.set (y * img.width + x) p := by
  unfold WebPImage.set_pixel
  rw [if_neg (Nat.not_lt.mpr hx), if_neg (Nat.not_lt.mpr hy)]

theorem set_pixel_of_oob (img : WebPImage) {x y : ℕ} (p : Pixel)
    (h : x > img.width ∨ y > img.height) :
    img.set_pixel x y p = img := by
  unfold WebPImage.set_pixel
  rcases h with h | h
  · rw [if_pos h]
  · by_cases hx : x > img.width
    · rw [if_pos hx]
    · rw [if_neg hx, if_pos h]

theorem index_inj {w x1 y1 x2 y2 : ℕ} (hx1 : x1 < w) (hx2 : x2 < w)
    (h : y1 * w + x1 = y2 * w + x2) : x1 = x2 ∧ y1 = y2 := by
  have hw : 0 < w := Nat.lt_of_le_of_lt (Nat.zero_le x1) hx1
  have hmod := congrArg (fun t => t % w) h
  have hdiv := congrArg (fun t => t / w) h
  simp only [mul_comm _ w] at hmod hdiv
  rw [Nat.mul_add_mod, Nat.mul_add_mod, Nat.mod_eq_of_lt hx1,
    Nat.mod_eq_of_lt hx2] at hmod
  rw [Nat.mul_add_div hw, Nat.mul_add_div hw, Nat.div_eq_of_lt hx1,
    Nat.div_eq_of_lt hx2] at hdiv
  exact ⟨hmod, by omega⟩

theorem index_lt_length {w h x y : ℕ} (hx : x < w) (hy : y < h) :
    y * w + x < w * h := by
  calc y * w + x < y * w + w := by omega
  _ = (y + 1) * w := by ring
  _ ≤ h * w := Nat.mul_le_mul_right w (by omega)
  _ = w * h := Nat.mul_comm h w

theorem get_pixel_set_pixel (img : WebPImage)
    (hlen : img.pixels.length = img.width * img.height)
    {x1 y1 x2 y2 : ℕ} (hx1 : x1 < img.width) (hy1 : y1 < img.height)
    (hx2 : x2 < img.width) (hy2 : y2 < img.height) (p : Pixel) :
    (img.set_pixel x1 y1 p).get_pixel x2 y2 =
      if x2 = x1 ∧ y2 = y1 then p else img.get_pixel x2 y2 := by
  have hW := set_pixel_width img x1 y1 p
  have hH := set_pixel_height img x1 y1 p
  have hpx := set_pixel_of_le img p (Nat.le_of_lt hx1) (Nat.le_of_lt hy1)
  rw [get_pixel_of_le _ (hW ▸ Nat.le_of_lt hx2) (hH ▸ Nat.le_of_lt hy2),
    get_pixel_of_le _ (Nat.le_of_lt hx2) (Nat.le_of_lt hy2), hW, hpx]
  rw [List.getD_eq_getElem?_getD, List.getD_eq_getElem?_getD,
    List.getElem?_set]
  by_cases hc : x2 = x1 ∧ y2 = y1
  · rcases hc with ⟨hcx, hcy⟩
    subst hcx; subst hcy
    rw [if_pos (rfl : y2 * img.width + x2 = y2 * img.width + x2),
      if_pos (show y2 * img.width + x2 < img.pixels.length by
        rw [hlen]; exact index_lt_length hx2 hy2),
      if_pos (⟨rfl, rfl⟩ : x2 = x2 ∧ y2 = y2)]
    rfl
  · have hne : ¬ (y1 * img.width + x1 = y2 * img.width + x2) := by
      intro he
      exact hc ⟨(index_inj hx1 hx2 he).1.symm, (index_inj hx1 hx2 he).2.symm⟩
    rw [if_neg hc, if_neg hne]

/-! Preservation of dimensions and storage length by the unblend loop. -/

theorem unblendStep_width (image mask : WebPImage) (alpha : ℚ)
    (ovr ovg ovb : ℤ) (y : ℕ) (acc : WebPImage) (x : ℕ) :
    (unblendStep image mask alpha ovr ovg ovb y acc x).width = acc.width := by
  unfold unblendStep
  split
  · rfl
  · exact set_pixel_width acc x y _

theorem unblendStep_height (image mask : WebPImage) (alpha : ℚ)
    (ovr ovg ovb : ℤ) (y : ℕ) (acc : WebPImage) (x : ℕ) :
    (unblendStep image mask alpha ovr ovg ovb y acc x).height = acc.height := by
  unfold unblendStep
  split
  · rfl
  · exact set_pixel_height acc x y _

theorem unblendStep_length (image mask : WebPImage) (alpha : ℚ)
    (ovr ovg ovb : ℤ) (y : ℕ) (acc : WebPImage) (x : ℕ) :
    (unblendStep image mask alpha ovr ovg ovb y acc x).pixels.length =
      acc.pixels.length := by
  unfold unblendStep
  split
  · rfl
  · exact set_pixel_length acc x y _

theorem inner_foldl_width (image mask : WebPImage) (alpha : ℚ)
    (ovr ovg ovb : ℤ) (y n : ℕ) (acc : WebPImage) :
    ((List.range n).foldl (unblendStep image mask alpha ovr ovg ovb y)
      acc).width = acc.width := by
  induction n with
  | zero => rfl
  | succ n ih =>
    rw [List.range_succ, List.foldl_append]
    simp only [List.foldl_cons, List.foldl_nil]
    rw [unblendStep_width]
    exact ih

theorem inner_foldl_height (image mask : WebPImage) (alpha : ℚ)
    (ovr ovg ovb : ℤ) (y n : ℕ) (acc : WebPImage) :
    ((List.range n).foldl (unblendStep image mask alpha ovr ovg ovb y)
      acc).height = acc.height := by
  induction n with
  | zero => rfl
  | succ n ih =>
    rw [List.range_succ, List.foldl_append]
    simp only [List.foldl_cons, List.foldl_nil]
    rw [unblendStep_height]
    exact ih

theorem inner_foldl_length (image mask : WebPImage) (alpha : ℚ)
    (ovr ovg ovb : ℤ) (y n : ℕ) (acc : WebPImage) :
    ((List.range n).foldl (unblendStep image mask alpha ovr ovg ovb y)
      acc).pixels.length = acc.pixels.length := by
  induction n with
  | zero => rfl
  | succ n ih =>
    rw [List.range_succ, List.foldl_append]
    simp only [List.foldl_cons, List.foldl_nil]
    rw [unblendStep_length]
    exact ih

theorem outer_foldl_width (image mask : WebPImage) (alpha : ℚ)
    (ovr ovg ovb : ℤ) (m : ℕ) (acc : WebPImage) :
    ((List.range m).foldl
      (fun recovered y =>
        (List.range image.width).foldl
          (unblendStep image mask alpha ovr ovg ovb y) recovered)
      acc).width = acc.width := by
  induction m with
  | zero => rfl
  | succ m ih =>
    rw [List.range_succ, List.foldl_append]
    simp only [List.foldl_cons, List.foldl_nil]
    rw [inner_foldl_width]
    exact ih

theorem outer_foldl_height (image mask : WebPImage) (alpha : ℚ)
    (ovr ovg ovb : ℤ) (m : ℕ) (acc : WebPImage) :
    ((List.range m).foldl
      (fun recovered y =>
        (List.range image.width).foldl
          (unblendStep image mask alpha ovr ovg ovb y) recovered)
      acc).height = acc.height := by
  induction m with
  | zero => rfl
  | succ m ih =>
    rw [List.range_succ, List.foldl_append]
    simp only [List.foldl_cons, List.foldl_nil]
    rw [inner_foldl_height]
    exact ih

theorem outer_foldl_length (image mask : WebPImage) (alpha : ℚ)
    (ovr ovg ovb : ℤ) (m : ℕ) (acc : WebPImage) :
    ((List.range m).foldl
      (fun recovered y =>
        (List.range image.width).foldl
          (unblendStep image mask alpha ovr ovg ovb y) recovered)
      acc).pixels.length = acc.pixels.length := by
  induction m with
  | zero => rfl
  | succ m ih =>
    rw [List.range_succ, List.foldl_append]
    simp only [List.foldl_cons, List.foldl_nil]
    rw [inner_foldl_length]
    exact ih

theorem unblend_width (image mask : WebPImage) (alpha : ℚ)
    (ovr ovg ovb : ℤ) :
    (unblend image mask alpha ovr ovg ovb).width = image.width :=
  outer_foldl_width image mask alpha ovr ovg ovb image.height image

theorem unblend_height (image mask : WebPImage) (alpha : ℚ)
    (ovr ovg ovb : ℤ) :
    (unblend image mask alpha ovr ovg ovb).height = image.height :=
  outer_foldl_height image mask alpha ovr ovg ovb image.height image

theorem unblend_length (image mask : WebPImage) (alpha : ℚ)
    (ovr ovg ovb : ℤ) :
    (unblend image mask alpha ovr ovg ovb).pixels.length =
      image.pixels.length :=
  outer_foldl_length image mask alpha ovr ovg ovb image.height image

/-! Pointwise characterisation of the unblend loop. -/

theorem inner_foldl_get_pixel (image mask : WebPImage) (alpha : ℚ)
    (ovr ovg ovb : ℤ) (y : ℕ) (n : ℕ) (acc : WebPImage)
    (hW : acc.width = image.width) (hH : acc.height = image.height)
    (hlen : acc.pixels.length = acc.width * acc.height)
    (hn : n ≤ image.width) (hy : y < image.height)
    {x2 y2 : ℕ} (hx2 : x2 < image.width) (hy2 : y2 < image.height) :
    ((List.range n).foldl (unblendStep image mask alpha ovr ovg ovb y)
      acc).get_pixel x2 y2
      = if y2 = y ∧ x2 < n ∧ mask.get_pixel x2 y2 ≠ BLACK
        then unblendedPixel image alpha ovr ovg ovb x2 y2
        else acc.get_pixel x2 y2 := by
  induction n with
  | zero =>
    simp only [List.range_zero, List.foldl_nil]
    rw [if_neg (fun hc => Nat.not_lt_zero x2 hc.2.1)]
  | succ n ih =>
    rw [List.range_succ, List.foldl_append]
    simp only [List.foldl_cons, List.foldl_nil]
    have ihn := ih (Nat.le_of_succ_le hn)
    set prev := (List.range n).foldl
      (unblendStep image mask alpha ovr ovg ovb y) acc with hprev
    have hpW : prev.width = image.width := by
      rw [hprev, inner_foldl_width]; exact hW
    have hpH : prev.height = image.height := by
      rw [hprev, inner_foldl_height]; exact hH
    have hplen : prev.pixels.length = prev.width * prev.height := by
      rw [hprev, inner_foldl_length, inner_foldl_width, inner_foldl_height]
      exact hlen
    unfold unblendStep
    by_cases hmask : mask.get_pixel n y = BLACK
    · rw [if_pos hmask, ihn]
      by_cases h1 : y2 = y
      · by_cases h3 : mask.get_pixel x2 y2 = BLACK
        · rw [if_neg (fun hc => hc.2.2 h3), if_neg (fun hc => hc.2.2 h3)]
        · by_cases h2 : x2 < n
          · rw [if_pos ⟨h1, h2, h3⟩, if_pos ⟨h1, Nat.lt_succ_of_lt h2, h3⟩]
          · have hxn : x2 ≠ n := by
              intro he
              subst he; subst h1
              exact h3 hmask
            rw [if_neg (fun hc => h2 hc.2.1),
              if_neg (fun hc => absurd hc.2.1 (by omega))]
      · rw [if_neg (fun hc => h1 hc.1), if_neg (fun hc => h1 hc.1)]
    · rw [if_neg hmask]
      rw [get_pixel_set_pixel prev hplen
        (by rw [hpW]; exact Nat.lt_of_succ_le hn) (by rw [hpH]; exact hy)
        (by rw [hpW]; exact hx2) (by rw [hpH]; exact hy2)]
      rw [ihn]
      by_cases hc : x2 = n ∧ y2 = y
      · rcases hc with ⟨hcx, hcy⟩
        subst hcx; subst hcy
        rw [if_pos ⟨rfl, rfl⟩, if_pos ⟨rfl, Nat.lt_succ_self x2, hmask⟩]
      · rw [if_neg hc]
        by_cases hc2 : y2 = y ∧ x2 < n ∧ mask.get_pixel x2 y2 ≠ BLACK
        · rw [if_pos hc2, if_pos ⟨hc2.1, Nat.lt_succ_of_lt hc2.2.1, hc2.2.2⟩]
        · rw [if_neg hc2, if_neg ?_]
          intro hcc
          refine hc2 ⟨hcc.1, ?_, hcc.2.2⟩
          have hne : x2 ≠ n := fun he => hc ⟨he, hcc.1⟩
          have hlt := hcc.2.1
          omega

theorem outer_foldl_get_pixel (image mask : WebPImage) (alpha : ℚ)
    (ovr ovg ovb : ℤ) (m : ℕ) (acc : WebPImage)
    (hW : acc.width = image.width) (hH : acc.height = image.height)
    (hlen : acc.pixels.length = acc.width * acc.height)
    (hm : m ≤ image.height)
    {x2 y2 : ℕ} (hx2 : x2 < image.width) (hy2 : y2 < image.height) :
    (((List.range m).foldl
      (fun recovered y =>
        (List.range image.width).foldl
          (unblendStep image mask alpha ovr ovg ovb y) recovered)
      acc)).get_pixel x2 y2
      = if y2 < m ∧ mask.get_pixel x2 y2 ≠ BLACK
        then unblendedPixel image alpha ovr ovg ovb x2 y2
        else acc.get_pixel x2 y2 := by
  induction m with
  | zero =>
    simp only [List.range_zero, List.foldl_nil]
    rw [if_neg (fun hc => Nat.not_lt_zero y2 hc.1)]
  | succ m ih =>
    rw [List.range_succ, List.foldl_append]
    simp only [List.foldl_cons, List.foldl_nil]
    have ihm := ih (Nat.le_of_succ_le hm)
    set prev := (List.range m).foldl
      (fun recovered y =>
        (List.range image.width).foldl
          (unblendStep image mask alpha ovr ovg ovb y) recovered)
      acc with hprev
    have hpW : prev.width = image.width := by
      rw [hprev, outer_foldl_width]; exact hW
    have hpH : prev.height = image.height := by
      rw [hprev, outer_foldl_height]; exact hH
    have hplen : prev.pixels.length = prev.width * prev.height := by
      rw [hprev, outer_foldl_length, outer_foldl_width, outer_foldl_height]
      exact hlen
    rw [inner_foldl_get_pixel image mask alpha ovr ovg ovb m image.width prev
      hpW hpH hplen (le_refl _) (Nat.lt_of_succ_le hm) hx2 hy2]
    rw [ihm]
    by_cases h1 : y2 = m
    · subst h1
      by_cases h3 : mask.get_pixel x2 y2 = BLACK
      · rw [if_neg (fun hc => hc.2.2 h3),
          if_neg (show ¬ (y2 < y2 ∧ mask.get_pixel x2 y2 ≠ BLACK) from
            fun hc => absurd hc.1 (Nat.lt_irrefl y2)),
          if_neg (show ¬ (y2 < y2 + 1 ∧ mask.get_pixel x2 y2 ≠ BLACK) from
            fun hc => hc.2 h3)]
      · rw [if_pos ⟨rfl, hx2, h3⟩, if_pos ⟨Nat.lt_succ_self y2, h3⟩]
    · rw [if_neg (fun hc => h1 hc.1)]
      by_cases hc2 : y2 < m ∧ mask.get_pixel x2 y2 ≠ BLACK
      · rw [if_pos hc2, if_pos ⟨Nat.lt_succ_of_lt hc2.1, hc2.2⟩]
      · rw [if_neg hc2, if_neg ?_]
        intro hcc
        refine hc2 ⟨?_, hcc.2⟩
        have := hcc.1
        omega

theorem unblend_get_pixel (image mask : WebPImage) (alpha : ℚ)
    (ovr ovg ovb : ℤ)
    (hlen : image.pixels.length = image.width * image.height)
    {x y : ℕ} (hx : x < image.width) (hy : y < image.height) :
    (unblend image mask alpha ovr ovg ovb).get_pixel x y
      = recoverPixel image mask alpha ovr ovg ovb x y := by
  unfold unblend recoverPixel
  rw [outer_foldl_get_pixel image mask alpha ovr ovg ovb image.height image
    rfl rfl hlen (le_refl _) hx hy]
  by_cases hmask : mask.get_pixel x y = BLACK
  · rw [if_neg (fun hc => hc.2 hmask), if_pos hmask]
  · rw [if_pos ⟨hy, hmask⟩, if_neg hmask]

/-! The unblend loop is the identity when every visited mask pixel is
pure black. -/

theorem inner_foldl_id (image mask : WebPImage) (alpha : ℚ)
    (ovr ovg ovb : ℤ) (y : ℕ) (n : ℕ) (acc : WebPImage)
    (h : ∀ x, x < n → mask.get_pixel x y = BLACK) :
    (List.range n).foldl (unblendStep image mask alpha ovr ovg ovb y) acc
      = acc := by
  induction n with
  | zero => rfl
  | succ n ih =>
    rw [List.range_succ, List.foldl_append]
    simp only [List.foldl_cons, List.foldl_nil]
    rw [ih (fun x hx => h x (Nat.lt_succ_of_lt hx))]
    unfold unblendStep
    rw [if_pos (h n (Nat.lt_succ_self n))]

theorem outer_foldl_id (image mask : WebPImage) (alpha : ℚ)
    (ovr ovg ovb : ℤ) (m : ℕ) (acc : WebPImage)
    (h : ∀ x y, x < image.width → y < m → mask.get_pixel x y = BLACK) :
    (List.range m).foldl
      (fun recovered y =>
        (List.range image.width).foldl
          (unblendStep image mask alpha ovr ovg ovb y) recovered)
      acc = acc := by
  induction m with
  | zero => rfl
  | succ m ih =>
    rw [List.range_succ, List.foldl_append]
    simp only [List.foldl_cons, List.foldl_nil]
    rw [ih (fun x y hx hy => h x y hx (Nat.lt_succ_of_lt hy))]
    exact inner_foldl_id image mask alpha ovr ovg ovb m image.width acc
      (fun x hx => h x m hx (Nat.lt_succ_self m))

theorem unblend_of_all_black (image mask : WebPImage) (alpha : ℚ)
    (ovr ovg ovb : ℤ)
    (h : ∀ x y, x < image.width → y < image.height →
      mask.get_pixel x y = BLACK) :
    unblend image mask alpha ovr ovg ovb = image :=
  outer_foldl_id image mask alpha ovr ovg ovb image.height image h

/-! Numeric facts about clamping, narrowing and the channel equation. -/

theorem stdClamp_nonneg (v lo hi : ℚ) (h : lo ≤ hi) :
    lo ≤ stdClamp v lo hi := by
  unfold stdClamp
  split
  · exact le_refl lo
  · split
    · exact h
    · linarith [not_lt.mp (by assumption : ¬ v < lo)]

theorem stdClamp_le_hi (v lo hi : ℚ) (h : lo ≤ hi) :
    stdClamp v lo hi ≤ hi := by
  unfold stdClamp
  split
  · exact h
  · split
    · exact le_refl hi
    · exact not_lt.mp (by assumption)

theorem stdClamp_eval_of (v : ℚ) (h0 : 0 ≤ v) (h255 : v ≤ 255) :
    stdClamp v 0 255 = v := by
  unfold stdClamp
  rw [if_neg (not_lt.mpr h0), if_neg (not_lt.mpr h255)]

theorem toByte_eq_of (q : ℚ) (n : ℕ) (h1 : (n : ℚ) ≤ q) (h2 : q < n + 1) :
    toByte q = n := by
  unfold toByte
  have hfl : ⌊q⌋ = (n : ℤ) := by
    rw [Int.floor_eq_iff]
    exact ⟨by exact_mod_cast h1, by push_cast; exact h2⟩
  rw [hfl, Int.toNat_natCast]

theorem toByte_le_255 (q : ℚ) (h : q ≤ 255) : toByte q ≤ 255 := by
  unfold toByte
  have h2 : ⌊q⌋ ≤ ⌊(255 : ℚ)⌋ := Int.floor_le_floor h
  have h3 : ⌊(255 : ℚ)⌋ = 255 := by
    rw [show (255 : ℚ) = ((255 : ℤ) : ℚ) by norm_num, Int.floor_intCast]
  omega

theorem toByte_char (q : ℚ) (h : 0 ≤ q) :
    ((toByte q : ℕ) : ℚ) ≤ q ∧ q < ((toByte q : ℕ) : ℚ) + 1 := by
  unfold toByte
  have h0 : 0 ≤ ⌊q⌋ := Int.le_floor.mpr (by exact_mod_cast h)
  have hcast : ((⌊q⌋.toNat : ℕ) : ℚ) = ((⌊q⌋ : ℤ) : ℚ) := by
    exact_mod_cast congrArg (fun z => ((z : ℤ) : ℚ)) (Int.toNat_of_nonneg h0)
  constructor
  · rw [hcast]; exact Int.floor_le q
  · rw [hcast]; exact Int.lt_floor_add_one q

theorem Eq_eval (c v : ℕ) (alpha q : ℚ)
    (hne : ((c : ℚ) - (v : ℚ) * (1 - alpha)) / alpha = q)
    (h0 : 0 ≤ q) (h255 : q ≤ 255) :
    Unblend.Eq c alpha v = q := by
  unfold Unblend.Eq
  rw [hne]
  exact stdClamp_eval_of q h0 h255

theorem round_eval (q : ℚ) (n : ℤ) (h1 : (n : ℚ) ≤ q + 1 / 2)
    (h2 : q + 1 / 2 < n + 1) : round q = n := by
  rw [round_eq, Int.floor_eq_iff]
  exact ⟨h1, by exact_mod_cast h2⟩

theorem Eq_nonneg (c v : ℕ) (alpha : ℚ) : 0 ≤ Unblend.Eq c alpha v := by
  unfold Unblend.Eq
  exact stdClamp_nonneg _ 0 255 (by norm_num)

theorem Eq_le_255 (c v : ℕ) (alpha : ℚ) : Unblend.Eq c alpha v ≤ 255 := by
  unfold Unblend.Eq
  exact stdClamp_le_hi _ 0 255 (by norm_num)

/-! Claim theorems. -/

/-- Claim C6: get_pixel(x, y) returns the default zero pixel (0,0,0)
exactly when x > width or y > height (the off-by-one bounds check, under
which coordinates equal to width or height count as in range), and
otherwise returns the stored pixel at linear index y * width + x. -/
theorem c6_get_pixel_bounds (img : WebPImage) (x y : ℕ) :
    (x > img.width ∨ y > img.height →
      img.get_pixel x y = { r := 0, g := 0, b := 0 }) ∧
    (x ≤ img.width → y ≤ img.height →
      ∀ h : y * img.width + x < img.pixels.length,
        img.get_pixel x y = img.pixels.get ⟨y * img.width + x, h⟩) := by
  constructor
  · exact fun h => get_pixel_of_oob img h
  · intro hx hy h
    rw [get_pixel_of_le img hx hy, List.getD_eq_getElem _ _ h]
    rfl

/-- Witness for C6 on a concrete 2 by 3 buffer: coordinate (3, 0) is past
the check and yields the zero pixel, while the boundary coordinate (2, 0),
with x equal to the width, passes the off-by-one check and reads the
stored pixel at linear index 2, the first pixel of the next row. -/
theorem c6_get_pixel_bounds_witness :
    (WebPImage.mk [{ r := 10, g := 10, b := 10 }, { r := 11, g := 11, b := 11 },
        { r := 12, g := 12, b := 12 }, { r := 13, g := 13, b := 13 },
        { r := 14, g := 14, b := 14 }, { r := 15, g := 15, b := 15 }] 2 3).get_pixel 3 0
      = { r := 0, g := 0, b := 0 } ∧
    (WebPImage.mk [{ r := 10, g := 10, b := 10 }, { r := 11, g := 11, b := 11 },
        { r := 12, g := 12, b := 12 }, { r := 13, g := 13, b := 13 },
        { r := 14, g := 14, b := 14 }, { r := 15, g := 15, b := 15 }] 2 3).get_pixel 2 0
      = { r := 12, g := 12, b := 12 } :=
  ⟨(c6_get_pixel_bounds _ 3 0).1 (Or.inl (by decide)),
   ((c6_get_pixel_bounds _ 2 0).2 (by decide) (by decide) (by decide)).trans
     (by decide)⟩

/-- Claim C7: set_pixel(x, y, value) leaves the buffer unchanged, without
reporting anything, whenever x > width or y > height (the same off-by-one
check as get_pixel), and otherwise writes value at linear index
y * width + x, keeping the dimensions. -/
theorem c7_set_pixel_bounds (img : WebPImage) (x y : ℕ) (p : Pixel) :
    (x > img.width ∨ y > img.height → img.set_pixel x y p = img) ∧
    (x ≤ img.width → y ≤ img.height →
      (img.set_pixel x y p).pixels = img.pixels.set (y * img.width + x) p ∧
      (img.set_pixel x y p).width = img.width ∧
      (img.set_pixel x y p).height = img.height) := by
  constructor
  · exact fun h => set_pixel_of_oob img p h
  · intro hx hy
    exact ⟨set_pixel_of_le img p hx hy, set_pixel_width img x y p,
      set_pixel_height img x y p⟩

/-- Witness for C7 on a concrete 2 by 3 buffer: the write at (3, 0) is
silently dropped, while the boundary write at (2, 0), with x equal to the
width, passes the off-by-one check and lands on linear index 2. -/
theorem c7_set_pixel_bounds_witness :
    (WebPImage.mk [{ r := 10, g := 10, b := 10 }, { r := 11, g := 11, b := 11 },
        { r := 12, g := 12, b := 12 }, { r := 13, g := 13, b := 13 },
        { r := 14, g := 14, b := 14 }, { r := 15, g := 15, b := 15 }] 2 3).set_pixel 3 0
        { r := 99, g := 99, b := 99 }
      = WebPImage.mk [{ r := 10, g := 10, b := 10 }, { r := 11, g := 11, b := 11 },
        { r := 12, g := 12, b := 12 }, { r := 13, g := 13, b := 13 },
        { r := 14, g := 14, b := 14 }, { r := 15, g := 15, b := 15 }] 2 3 ∧
    ((WebPImage.mk [{ r := 10, g := 10, b := 10 }, { r := 11, g := 11, b := 11 },
        { r := 12, g := 12, b := 12 }, { r := 13, g := 13, b := 13 },
        { r := 14, g := 14, b := 14 }, { r := 15, g := 15, b := 15 }] 2 3).set_pixel 2 0
        { r := 99, g := 99, b := 99 }).pixels
      = [{ r := 10, g := 10, b := 10 }, { r := 11, g := 11, b := 11 },
        { r := 99, g := 99, b := 99 }, { r := 13, g := 13, b := 13 },
        { r := 14, g := 14, b := 14 }, { r := 15, g := 15, b := 15 }] :=
  ⟨(c7_set_pixel_bounds _ 3 0 { r := 99, g := 99, b := 99 }).1 (Or.inl (by decide)),
   (((c7_set_pixel_bounds _ 2 0 { r := 99, g := 99, b := 99 }).2 (by decide)
      (by decide)).1).trans (by decide)⟩

theorem emod256_toNat_of_le (v : ℕ) (hv : v ≤ 255) :
    (((v : ℤ)) % 256).toNat = v := by
  rw [Int.emod_eq_of_lt (Int.natCast_nonneg v)
    (by exact_mod_cast (by omega : v < 256))]
  exact Int.toNat_natCast v

/-- Claim C2: a pixel whose mask value is pure black keeps the composite
value, and with an all-black mask the recovered buffer is the composite
buffer itself, unchanged. -/
theorem c2_black_mask_pass_through (image mask : WebPImage) (alpha : ℚ)
    (ovr ovg ovb : ℤ)
    (hlen : image.pixels.length = image.width * image.height) :
    (∀ x y, x < image.width → y < image.height →
      mask.get_pixel x y = BLACK →
      (unblend image mask alpha ovr ovg ovb).get_pixel x y
        = image.get_pixel x y) ∧
    ((∀ x y, x < image.width → y < image.height →
        mask.get_pixel x y = BLACK) →
      unblend image mask alpha ovr ovg ovb = image) := by
  constructor
  · intro x y hx hy hb
    rw [unblend_get_pixel image mask alpha ovr ovg ovb hlen hx hy]
    unfold recoverPixel
    rw [if_pos hb]
  · exact unblend_of_all_black image mask alpha ovr ovg ovb

/-- Witness for C2: a 1 by 1 composite with an all-black mask passes
through the unblend pass untouched, both pointwise and as a buffer. -/
theorem c2_black_mask_pass_through_witness :
    (unblend (WebPImage.mk [{ r := 200, g := 200, b := 200 }] 1 1)
        (WebPImage.mk [{ r := 0, g := 0, b := 0 }] 1 1)
        (1 / 2) 255 255 255).get_pixel 0 0
      = { r := 200, g := 200, b := 200 } ∧
    unblend (WebPImage.mk [{ r := 200, g := 200, b := 200 }] 1 1)
        (WebPImage.mk [{ r := 0, g := 0, b := 0 }] 1 1)
        (1 / 2) 255 255 255
      = WebPImage.mk [{ r := 200, g := 200, b := 200 }] 1 1 :=
  ⟨((c2_black_mask_pass_through _ _ (1 / 2) 255 255 255 (by decide)).1
      0 0 (by decide) (by decide) (by decide)).trans (by decide),
   (c2_black_mask_pass_through _ _ (1 / 2) 255 255 255 (by decide)).2
     (fun x y hx hy => by
        have hx0 : x = 0 := Nat.lt_one_iff.mp hx
        have hy0 : y = 0 := Nat.lt_one_iff.mp hy
        subst hx0; subst hy0
        decide)⟩

/-- Claim C8: the unblend pass is deterministic and per-pixel independent:
the sequential loop agrees with the stateless per-coordinate mapping
recoverPixel, and the output at a coordinate depends only on the composite
and mask pixels at that same coordinate (so any processing order gives the
same result). -/
theorem c8_per_pixel_independence (image1 mask1 image2 mask2 : WebPImage)
    (alpha : ℚ) (ovr ovg ovb : ℤ)
    (hlen1 : image1.pixels.length = image1.width * image1.height)
    (hlen2 : image2.pixels.length = image2.width * image2.height)
    (hW : image2.width = image1.width) (hH : image2.height = image1.height)
    {x y : ℕ} (hx : x < image1.width) (hy : y < image1.height)
    (himg : image2.get_pixel x y = image1.get_pixel x y)
    (hmask : mask2.get_pixel x y = mask1.get_pixel x y) :
    (unblend image1 mask1 alpha ovr ovg ovb).get_pixel x y
      = recoverPixel image1 mask1 alpha ovr ovg ovb x y ∧
    (unblend image2 mask2 alpha ovr ovg ovb).get_pixel x y
      = (unblend image1 mask1 alpha ovr ovg ovb).get_pixel x y := by
  constructor
  · exact unblend_get_pixel image1 mask1 alpha ovr ovg ovb hlen1 hx hy
  · rw [unblend_get_pixel image1 mask1 alpha ovr ovg ovb hlen1 hx hy,
      unblend_get_pixel image2 mask2 alpha ovr ovg ovb hlen2
        (by omega) (by omega)]
    simp only [recoverPixel, unblendedPixel, himg, hmask]

/-- Witness for C8: two 2 by 1 composite/mask pairs agreeing only at
coordinate (0, 0) produce the same recovered pixel there, and the loop
output agrees with the per-coordinate mapping. -/
theorem c8_per_pixel_independence_witness :
    (unblend (WebPImage.mk [{ r := 200, g := 200, b := 200 },
          { r := 50, g := 50, b := 50 }] 2 1)
        (WebPImage.mk [{ r := 255, g := 255, b := 255 },
          { r := 255, g := 255, b := 255 }] 2 1)
        (1 / 2) 255 255 255).get_pixel 0 0
      = recoverPixel (WebPImage.mk [{ r := 200, g := 200, b := 200 },
          { r := 50, g := 50, b := 50 }] 2 1)
        (WebPImage.mk [{ r := 255, g := 255, b := 255 },
          { r := 255, g := 255, b := 255 }] 2 1)
        (1 / 2) 255 255 255 0 0 ∧
    (unblend (WebPImage.mk [{ r := 200, g := 200, b := 200 },
          { r := 77, g := 77, b := 77 }] 2 1)
        (WebPImage.mk [{ r := 255, g := 255, b := 255 },
          { r := 0, g := 0, b := 0 }] 2 1)
        (1 / 2) 255 255 255).get_pixel 0 0
      = (unblend (WebPImage.mk [{ r := 200, g := 200, b := 200 },
          { r := 50, g := 50, b := 50 }] 2 1)
        (WebPImage.mk [{ r := 255, g := 255, b := 255 },
          { r := 255, g := 255, b := 255 }] 2 1)
        (1 / 2) 255 255 255).get_pixel 0 0 :=
  c8_per_pixel_independence _ _ _ _ (1 / 2) 255 255 255
    (by decide) (by decide) (by decide) (by decide)
    (by decide) (by decide) (by decide) (by decide)

/-- Claim C1: at every pixel whose mask value is not pure black, the
recovered pixel is, independently per channel, the float value
clamp((final - overlay * (1 - alpha)) / alpha, 0, 255) narrowed to an
8-bit channel, and the stored channels lie in [0, 255] - clamped, never
wrapped (the overlay channels are given here already in byte range, so
the modulo-256 narrowing is the identity on them). -/
theorem c1_masked_pixel_formula (image mask : WebPImage) (alpha : ℚ)
    (vr vg vb : ℕ) (hvr : vr ≤ 255) (hvg : vg ≤ 255) (hvb : vb ≤ 255)
    (hlen : image.pixels.length = image.width * image.height)
    {x y : ℕ} (hx : x < image.width) (hy : y < image.height)
    (hmask : mask.get_pixel x y ≠ BLACK) :
    (unblend image mask alpha (vr : ℤ) (vg : ℤ) (vb : ℤ)).get_pixel x y
      = { r := toByte (stdClamp ((((image.get_pixel x y).r : ℚ)
              - (vr : ℚ) * (1 - alpha)) / alpha) 0 255),
          g := toByte (stdClamp ((((image.get_pixel x y).g : ℚ)
              - (vg : ℚ) * (1 - alpha)) / alpha) 0 255),
          b := toByte (stdClamp ((((image.get_pixel x y).b : ℚ)
              - (vb : ℚ) * (1 - alpha)) / alpha) 0 255) } ∧
    ((unblend image mask alpha (vr : ℤ) (vg : ℤ) (vb : ℤ)).get_pixel x y).r
      ≤ 255 ∧
    ((unblend image mask alpha (vr : ℤ) (vg : ℤ) (vb : ℤ)).get_pixel x y).g
      ≤ 255 ∧
    ((unblend image mask alpha (vr : ℤ) (vg : ℤ) (vb : ℤ)).get_pixel x y).b
      ≤ 255 := by
  have hpix : (unblend image mask alpha (vr : ℤ) (vg : ℤ) (vb : ℤ)).get_pixel x y
      = unblendedPixel image alpha (vr : ℤ) (vg : ℤ) (vb : ℤ) x y := by
    rw [unblend_get_pixel image mask alpha (vr : ℤ) (vg : ℤ) (vb : ℤ) hlen hx hy]
    unfold recoverPixel
    rw [if_neg hmask]
  rw [hpix]
  simp only [unblendedPixel, emod256_toNat_of_le vr hvr,
    emod256_toNat_of_le vg hvg, emod256_toNat_of_le vb hvb]
  refine ⟨?_, toByte_le_255 _ (Eq_le_255 _ _ _), toByte_le_255 _ (Eq_le_255 _ _ _),
    toByte_le_255 _ (Eq_le_255 _ _ _)⟩
  unfold Unblend.Eq
  rfl

/-- Witness for C1: a concrete masked pixel whose unclamped channel value
400 exceeds 255, exercising the clamp; hypotheses are discharged at a
1 by 1 composite (200,200,200), white mask, alpha 1/2, overlay (0,0,0). -/
theorem c1_masked_pixel_formula_witness :
    0 ≤ (255 : ℕ) ∧
    (unblend (WebPImage.mk [{ r := 200, g := 200, b := 200 }] 1 1)
        (WebPImage.mk [{ r := 255, g := 255, b := 255 }] 1 1)
        (1 / 2) ((0 : ℕ) : ℤ) ((0 : ℕ) : ℤ) ((0 : ℕ) : ℤ)).get_pixel 0 0
      = { r := toByte (stdClamp (((((WebPImage.mk
              [{ r := 200, g := 200, b := 200 }] 1 1).get_pixel 0 0).r : ℚ)
              - ((0 : ℕ) : ℚ) * (1 - 1 / 2)) / (1 / 2)) 0 255),
          g := toByte (stdClamp (((((WebPImage.mk
              [{ r := 200, g := 200, b := 200 }] 1 1).get_pixel 0 0).g : ℚ)
              - ((0 : ℕ) : ℚ) * (1 - 1 / 2)) / (1 / 2)) 0 255),
          b := toByte (stdClamp (((((WebPImage.mk
              [{ r := 200, g := 200, b := 200 }] 1 1).get_pixel 0 0).b : ℚ)
              - ((0 : ℕ) : ℚ) * (1 - 1 / 2)) / (1 / 2)) 0 255) } ∧
    ((unblend (WebPImage.mk [{ r := 200, g := 200, b := 200 }] 1 1)
        (WebPImage.mk [{ r := 255, g := 255, b := 255 }] 1 1)
        (1 / 2) ((0 : ℕ) : ℤ) ((0 : ℕ) : ℤ) ((0 : ℕ) : ℤ)).get_pixel 0 0).r
      ≤ 255 ∧
    ((unblend (WebPImage.mk [{ r := 200, g := 200, b := 200 }] 1 1)
        (WebPImage.mk [{ r := 255, g := 255, b := 255 }] 1 1)
        (1 / 2) ((0 : ℕ) : ℤ) ((0 : ℕ) : ℤ) ((0 : ℕ) : ℤ)).get_pixel 0 0).g
      ≤ 255 ∧
    ((unblend (WebPImage.mk [{ r := 200, g := 200, b := 200 }] 1 1)
        (WebPImage.mk [{ r := 255, g := 255, b := 255 }] 1 1)
        (1 / 2) ((0 : ℕ) : ℤ) ((0 : ℕ) : ℤ) ((0 : ℕ) : ℤ)).get_pixel 0 0).b
      ≤ 255 :=
  ⟨Nat.zero_le 255,
   c1_masked_pixel_formula _ _ (1 / 2) 0 0 0 (by decide) (by decide) (by decide)
     (by decide) (by decide) (by decide) (by decide)⟩

/-- Claim C4: composite pixel (200,200,200), overlay color (255,255,255),
alpha 1/2, non-black mask: the recovered pixel is exactly (145,145,145),
since (200 - 255 * 0.5) / 0.5 = 145 for every channel. -/
theorem c4_scenario :
    (unblend (WebPImage.mk [{ r := 200, g := 200, b := 200 }] 1 1)
        (WebPImage.mk [{ r := 255, g := 255, b := 255 }] 1 1)
        (1 / 2) 255 255 255).get_pixel 0 0
      = { r := 145, g := 145, b := 145 } := by
  rw [unblend_get_pixel _ _ _ _ _ _ (by decide) (by decide) (by decide)]
  unfold recoverPixel
  rw [if_neg (by decide)]
  have h200 : (WebPImage.mk [{ r := 200, g := 200, b := 200 }] 1 1).get_pixel 0 0
      = { r := 200, g := 200, b := 200 } := by decide
  simp only [unblendedPixel, h200]
  have hemod : ((255 : ℤ) % 256).toNat = 255 := by decide
  rw [hemod]
  have heq : Unblend.Eq 200 (1 / 2) 255 = 145 :=
    Eq_eval 200 255 (1 / 2) 145 (by norm_num) (by norm_num) (by norm_num)
  rw [heq]
  have htb : toByte (145 : ℚ) = 145 := toByte_eq_of 145 145 (by norm_num) (by norm_num)
  rw [htb]

theorem WebPImage_ext (u v : WebPImage) (hp : u.pixels = v.pixels)
    (hw : u.width = v.width) (hh : u.height = v.height) : u = v := by
  cases u
  cases v
  cases hp
  cases hw
  cases hh
  rfl

/-- Claim C9: every overlay channel, supplied as an int, is narrowed to an
8-bit unsigned value before entering the formula: unblending with overlay
channels (vr, vg, vb) is identical to unblending with them reduced modulo
256, and in particular overlay value 256 behaves exactly as 0. -/
theorem c9_overlay_mod256 (image mask : WebPImage) (alpha : ℚ) :
    (∀ vr vg vb : ℤ,
      unblend image mask alpha vr vg vb
        = unblend image mask alpha (vr % 256) (vg % 256) (vb % 256)) ∧
    unblend image mask alpha 256 256 256 = unblend image mask alpha 0 0 0 := by
  have key : ∀ vr vg vb : ℤ,
      unblend image mask alpha vr vg vb
        = unblend image mask alpha (vr % 256) (vg % 256) (vb % 256) := by
    intro vr vg vb
    have hpix : unblendedPixel image alpha vr vg vb
        = unblendedPixel image alpha (vr % 256) (vg % 256) (vb % 256) := by
      funext x y
      unfold unblendedPixel
      rw [Int.emod_emod_of_dvd vr dvd_rfl, Int.emod_emod_of_dvd vg dvd_rfl,
        Int.emod_emod_of_dvd vb dvd_rfl]
    have hstep : unblendStep image mask alpha vr vg vb
        = unblendStep image mask alpha (vr % 256) (vg % 256) (vb % 256) := by
      funext y acc x
      unfold unblendStep
      rw [hpix]
    unfold unblend
    rw [hstep]
  refine ⟨key, ?_⟩
  have h := key 256 256 256
  rw [show (256 : ℤ) % 256 = 0 from by decide] at h
  exact h

/-- Counterexample to claim C5 as stated: at alpha = 0 the unblend pass
raises nothing and silently returns pixel values.  On a 1 by 1 composite
(200,200,200) with non-black mask and overlay (255,255,255) every channel
numerator 200 - 255 is negative, the float code clamps the resulting
minus infinity to 0 exactly as the rational model does, and the pass
stores (0,0,0); no DegenerateAlpha error exists anywhere in the code. -/
theorem c5_alpha_zero_silent :
    unblend (WebPImage.mk [{ r := 200, g := 200, b := 200 }] 1 1)
        (WebPImage.mk [{ r := 255, g := 255, b := 255 }] 1 1) 0 255 255 255
      = WebPImage.mk [{ r := 0, g := 0, b := 0 }] 1 1 := by
  have hget : (unblend (WebPImage.mk [{ r := 200, g := 200, b := 200 }] 1 1)
      (WebPImage.mk [{ r := 255, g := 255, b := 255 }] 1 1) 0 255 255 255).get_pixel 0 0
      = { r := 0, g := 0, b := 0 } := by
    rw [unblend_get_pixel _ _ _ _ _ _ (by decide) (by decide) (by decide)]
    unfold recoverPixel
    rw [if_neg (by decide)]
    have h200 : (WebPImage.mk [{ r := 200, g := 200, b := 200 }] 1 1).get_pixel 0 0
        = { r := 200, g := 200, b := 200 } := by decide
    simp only [unblendedPixel, h200]
    rw [show ((255 : ℤ) % 256).toNat = 255 from by decide]
    rw [Eq_eval 200 255 0 0 (by norm_num) (by norm_num) (by norm_num)]
    rw [toByte_eq_of 0 0 (by norm_num) (by norm_num)]
  have hL : (unblend (WebPImage.mk [{ r := 200, g := 200, b := 200 }] 1 1)
      (WebPImage.mk [{ r := 255, g := 255, b := 255 }] 1 1) 0 255 255 255).pixels.length
      = 1 := by
    rw [unblend_length]
    decide
  obtain ⟨a, ha⟩ := List.length_eq_one.mp hL
  have hav : a = { r := 0, g := 0, b := 0 } := by
    have h0 := hget
    rw [get_pixel_of_le _ (Nat.zero_le _) (Nat.zero_le _), ha] at h0
    simpa using h0
  refine WebPImage_ext _ _ ?_ ?_ ?_
  · rw [ha, hav]
  · rw [unblend_width]
  · rw [unblend_height]

/-- Claim C10: the clamped floating-point channel value is narrowed to the
8-bit output channel by truncation toward zero, not round-to-nearest: at
every masked pixel the stored channel n and the clamped value q satisfy
n less-or-equal q and q less-than n + 1, so any fractional part is
dropped. -/
theorem c10_truncation_mode (image mask : WebPImage) (alpha : ℚ)
    (vr vg vb : ℤ)
    (hlen : image.pixels.length = image.width * image.height)
    {x y : ℕ} (hx : x < image.width) (hy : y < image.height)
    (hmask : mask.get_pixel x y ≠ BLACK) :
    ((((unblend image mask alpha vr vg vb).get_pixel x y).r : ℚ)
        ≤ Unblend.Eq (image.get_pixel x y).r alpha (vr % 256).toNat ∧
      Unblend.Eq (image.get_pixel x y).r alpha (vr % 256).toNat
        < (((unblend image mask alpha vr vg vb).get_pixel x y).r : ℚ) + 1) ∧
    ((((unblend image mask alpha vr vg vb).get_pixel x y).g : ℚ)
        ≤ Unblend.Eq (image.get_pixel x y).g alpha (vg % 256).toNat ∧
      Unblend.Eq (image.get_pixel x y).g alpha (vg % 256).toNat
        < (((unblend image mask alpha vr vg vb).get_pixel x y).g : ℚ) + 1) ∧
    ((((unblend image mask alpha vr vg vb).get_pixel x y).b : ℚ)
        ≤ Unblend.Eq (image.get_pixel x y).b alpha (vb % 256).toNat ∧
      Unblend.Eq (image.get_pixel x y).b alpha (vb % 256).toNat
        < (((unblend image mask alpha vr vg vb).get_pixel x y).b : ℚ) + 1) := by
  have hpix : (unblend image mask alpha vr vg vb).get_pixel x y
      = unblendedPixel image alpha vr vg vb x y := by
    rw [unblend_get_pixel image mask alpha vr vg vb hlen hx hy]
    unfold recoverPixel
    rw [if_neg hmask]
  rw [hpix]
  exact ⟨toByte_char _ (Eq_nonneg _ _ _), toByte_char _ (Eq_nonneg _ _ _),
    toByte_char _ (Eq_nonneg _ _ _)⟩

/-- Witness for C10: with composite channel 132, overlay channel 3 and
alpha 10/11, the clamped value is 1449/10 = 144.9, and the stored pixel
is (144,144,144): the fractional part is truncated, where
round-to-nearest would store 145. -/
theorem c10_truncation_mode_witness :
    (WebPImage.mk [{ r := 255, g := 255, b := 255 }] 1 1).get_pixel 0 0
      ≠ BLACK ∧
    ((((unblend (WebPImage.mk [{ r := 132, g := 132, b := 132 }] 1 1)
          (WebPImage.mk [{ r := 255, g := 255, b := 255 }] 1 1)
          (10 / 11) 3 3 3).get_pixel 0 0).r : ℚ)
        ≤ Unblend.Eq ((WebPImage.mk [{ r := 132, g := 132, b := 132 }] 1 1).get_pixel
            0 0).r (10 / 11) ((3 : ℤ) % 256).toNat ∧
      Unblend.Eq ((WebPImage.mk [{ r := 132, g := 132, b := 132 }] 1 1).get_pixel
            0 0).r (10 / 11) ((3 : ℤ) % 256).toNat
        < (((unblend (WebPImage.mk [{ r := 132, g := 132, b := 132 }] 1 1)
          (WebPImage.mk [{ r := 255, g := 255, b := 255 }] 1 1)
          (10 / 11) 3 3 3).get_pixel 0 0).r : ℚ) + 1) ∧
    (unblend (WebPImage.mk [{ r := 132, g := 132, b := 132 }] 1 1)
        (WebPImage.mk [{ r := 255, g := 255, b := 255 }] 1 1)
        (10 / 11) 3 3 3).get_pixel 0 0
      = { r := 144, g := 144, b := 144 } := by
  refine ⟨by decide,
    (c10_truncation_mode _ _ (10 / 11) 3 3 3 (by decide) (by decide) (by decide)
      (by decide)).1, ?_⟩
  rw [unblend_get_pixel _ _ _ _ _ _ (by decide) (by decide) (by decide)]
  unfold recoverPixel
  rw [if_neg (by decide)]
  have h132 : (WebPImage.mk [{ r := 132, g := 132, b := 132 }] 1 1).get_pixel 0 0
      = { r := 132, g := 132, b := 132 } := by decide
  simp only [unblendedPixel, h132]
  rw [show ((3 : ℤ) % 256).toNat = 3 from by decide]
  rw [Eq_eval 132 3 (10 / 11) (1449 / 10) (by norm_num) (by norm_num)
    (by norm_num)]
  rw [toByte_eq_of (1449 / 10) 144 (by norm_num) (by norm_num)]

/-- Round-trip error bound for one channel: blending forward with
round-to-nearest and unblending with the same parameters returns to
within one intensity step of the original, provided alpha is at least
one half. -/
theorem roundtrip_channel (o v : ℕ) (ho : o ≤ 255) (hv : v ≤ 255)
    (alpha : ℚ) (h1 : 1 / 2 ≤ alpha) (h2 : alpha ≤ 1) :
    |((toByte (Unblend.Eq (compositeChannel o v alpha) alpha v) : ℕ) : ℤ)
      - (o : ℤ)| ≤ 1 := by
  have hα0 : (0 : ℚ) < alpha := lt_of_lt_of_le (by norm_num) h1
  have hαne : alpha ≠ 0 := ne_of_gt hα0
  have hoQ : ((o : ℕ) : ℚ) ≤ 255 := by exact_mod_cast ho
  have hvQ : ((v : ℕ) : ℚ) ≤ 255 := by exact_mod_cast hv
  have ho0 : (0 : ℚ) ≤ ((o : ℕ) : ℚ) := Nat.cast_nonneg o
  have hv0 : (0 : ℚ) ≤ ((v : ℕ) : ℚ) := Nat.cast_nonneg v
  set E : ℚ := ((o : ℕ) : ℚ) * alpha + ((v : ℕ) : ℚ) * (1 - alpha) with hE
  have hE0 : 0 ≤ E := by
    rw [hE]
    have t1 : (0 : ℚ) ≤ ((o : ℕ) : ℚ) * alpha := mul_nonneg ho0 (le_of_lt hα0)
    have t2 : (0 : ℚ) ≤ ((v : ℕ) : ℚ) * (1 - alpha) :=
      mul_nonneg hv0 (by linarith)
    linarith
  have hE255 : E ≤ 255 := by
    have key : 255 - E
        = (255 - ((o : ℕ) : ℚ)) * alpha + (255 - ((v : ℕ) : ℚ)) * (1 - alpha) := by
      rw [hE]; ring
    have t1 : (0 : ℚ) ≤ (255 - ((o : ℕ) : ℚ)) * alpha :=
      mul_nonneg (by linarith) (le_of_lt hα0)
    have t2 : (0 : ℚ) ≤ (255 - ((v : ℕ) : ℚ)) * (1 - alpha) :=
      mul_nonneg (by linarith) (by linarith)
    linarith
  have hF : compositeChannel o v alpha = (round E).toNat := by
    unfold compositeChannel
    rw [← hE, stdClamp_eval_of E hE0 hE255]
  have hrF0 : 0 ≤ round E := by
    rw [round_eq]
    exact Int.le_floor.mpr (by push_cast; linarith)
  have hrF255 : round E ≤ 255 := by
    rw [round_eq]
    have : ⌊E + 1 / 2⌋ < 256 := Int.floor_lt.mpr (by push_cast; linarith)
    omega
  have habs : |E - ((round E : ℤ) : ℚ)| ≤ 1 / 2 := abs_sub_round E
  rw [hF]
  unfold Unblend.Eq
  set q : ℚ := (((round E).toNat : ℕ) : ℚ) with hq
  have hcast : q = ((round E : ℤ) : ℚ) := by
    rw [hq]
    exact_mod_cast congrArg (fun z => ((z : ℤ) : ℚ)) (Int.toNat_of_nonneg hrF0)
  have hqE : |q - E| ≤ 1 / 2 := by
    rw [hcast, abs_sub_comm]
    exact habs
  have hval : (q - ((v : ℕ) : ℚ) * (1 - alpha)) / alpha
      = ((o : ℕ) : ℚ) + (q - E) / alpha := by
    rw [hE]
    field_simp
    ring
  have hdiv : |(q - E) / alpha| ≤ 1 := by
    rw [abs_div, abs_of_pos hα0, div_le_one hα0]
    linarith
  have hdiv2 := abs_le.mp hdiv
  have hlow : ((o : ℕ) : ℚ) - 1 ≤ (q - ((v : ℕ) : ℚ) * (1 - alpha)) / alpha := by
    rw [hval]
    linarith [hdiv2.1]
  have hhigh : (q - ((v : ℕ) : ℚ) * (1 - alpha)) / alpha ≤ ((o : ℕ) : ℚ) + 1 := by
    rw [hval]
    linarith [hdiv2.2]
  set c : ℚ := stdClamp ((q - ((v : ℕ) : ℚ) * (1 - alpha)) / alpha) 0 255 with hc
  have hc0 : 0 ≤ c := by
    rw [hc]
    exact stdClamp_nonneg _ 0 255 (by norm_num)
  have hcbound : ((o : ℕ) : ℚ) - 1 ≤ c ∧ c ≤ ((o : ℕ) : ℚ) + 1 := by
    rw [hc]
    unfold stdClamp
    split
    · constructor
      · linarith [hlow, (by assumption : (q - ((v : ℕ) : ℚ) * (1 - alpha)) / alpha < 0)]
      · linarith
    · split
      · constructor
        · linarith
        · linarith [hhigh,
            (by assumption : (255 : ℚ) < (q - ((v : ℕ) : ℚ) * (1 - alpha)) / alpha)]
      · exact ⟨hlow, hhigh⟩
  have hfl : ((toByte c : ℕ) : ℤ) = ⌊c⌋ := by
    unfold toByte
    exact Int.toNat_of_nonneg (Int.le_floor.mpr (by exact_mod_cast hc0))
  have hfl_low : (o : ℤ) - 1 ≤ ⌊c⌋ :=
    Int.le_floor.mpr (by push_cast; linarith [hcbound.1])
  have hfl_high : ⌊c⌋ ≤ (o : ℤ) + 1 := by
    have step : ⌊c⌋ ≤ ⌊((o : ℕ) : ℚ) + 1⌋ := Int.floor_le_floor hcbound.2
    rwa [show (((o : ℕ) : ℚ) + 1) = ((((o : ℕ) : ℤ) + 1 : ℤ) : ℚ) by push_cast; ring,
      Int.floor_intCast] at step
  rw [abs_le]
  rw [hfl]
  omega

theorem get_pixel_map (o : WebPImage) (f : Pixel → Pixel)
    (hlen : o.pixels.length = o.width * o.height)
    {x y : ℕ} (hx : x < o.width) (hy : y < o.height) :
    ({ o with pixels := o.pixels.map f } : WebPImage).get_pixel x y
      = f (o.get_pixel x y) := by
  have hidx : y * o.width + x < o.pixels.length := by
    rw [hlen]; exact index_lt_length hx hy
  have h1 : x ≤ ({ o with pixels := o.pixels.map f } : WebPImage).width :=
    le_of_lt hx
  have h2 : y ≤ ({ o with pixels := o.pixels.map f } : WebPImage).height :=
    le_of_lt hy
  rw [get_pixel_of_le _ h1 h2, get_pixel_of_le o (le_of_lt hx) (le_of_lt hy)]
  show (o.pixels.map f).getD (y * o.width + x) {}
    = f (o.pixels.getD (y * o.width + x) {})
  rw [List.getD_eq_getElem?_getD, List.getD_eq_getElem?_getD,
    List.getElem?_map, List.getElem?_eq_getElem hidx]
  rfl

theorem compositeBuffer_get_pixel (o : WebPImage) (v : Pixel) (alpha : ℚ)
    (hlen : o.pixels.length = o.width * o.height)
    {x y : ℕ} (hx : x < o.width) (hy : y < o.height) :
    (compositeBuffer o v alpha).get_pixel x y
      = { r := compositeChannel (o.get_pixel x y).r v.r alpha,
          g := compositeChannel (o.get_pixel x y).g v.g alpha,
          b := compositeChannel (o.get_pixel x y).b v.b alpha } := by
  unfold compositeBuffer
  exact get_pixel_map o _ hlen hx hy

/-- Claim C3 (amended): the round-trip property holds with the stated
tolerance of one intensity step per channel when alpha lies in [1/2, 1]:
blending any original buffer forward against overlay color v with such an
alpha and unblending under an all-non-black mask returns every channel to
within 1 of the original.  (For smaller alpha the rounding error of the
8-bit composite is amplified by 1/alpha and the claimed tolerance of 1
fails; see the counterexample.) -/
theorem c3_roundtrip_amended (o mask : WebPImage) (v : Pixel) (alpha : ℚ)
    (hlen : o.pixels.length = o.width * o.height)
    (hchan : ∀ p ∈ o.pixels, p.r ≤ 255 ∧ p.g ≤ 255 ∧ p.b ≤ 255)
    (hvr : v.r ≤ 255) (hvg : v.g ≤ 255) (hvb : v.b ≤ 255)
    (h1 : 1 / 2 ≤ alpha) (h2 : alpha ≤ 1)
    (hmask : ∀ x y, x < o.width → y < o.height → mask.get_pixel x y ≠ BLACK)
    {x y : ℕ} (hx : x < o.width) (hy : y < o.height) :
    withinOne ((unblend (compositeBuffer o v alpha) mask alpha
        (v.r : ℤ) (v.g : ℤ) (v.b : ℤ)).get_pixel x y) (o.get_pixel x y) := by
  have hlenc : (compositeBuffer o v alpha).pixels.length
      = (compositeBuffer o v alpha).width * (compositeBuffer o v alpha).height := by
    show (o.pixels.map _).length = o.width * o.height
    rw [List.length_map]
    exact hlen
  have hxc : x < (compositeBuffer o v alpha).width := hx
  have hyc : y < (compositeBuffer o v alpha).height := hy
  rw [unblend_get_pixel _ _ _ _ _ _ hlenc hxc hyc]
  unfold recoverPixel
  rw [if_neg (hmask x y hx hy)]
  have hmem : o.get_pixel x y ∈ o.pixels := by
    have hidx : y * o.width + x < o.pixels.length := by
      rw [hlen]; exact index_lt_length hx hy
    rw [get_pixel_of_le o (le_of_lt hx) (le_of_lt hy),
      List.getD_eq_getElem _ _ hidx]
    exact List.getElem_mem hidx
  obtain ⟨hr, hg, hb⟩ := hchan _ hmem
  simp only [unblendedPixel, compositeBuffer_get_pixel o v alpha hlen hx hy,
    emod256_toNat_of_le v.r hvr, emod256_toNat_of_le v.g hvg,
    emod256_toNat_of_le v.b hvb]
  exact ⟨roundtrip_channel _ _ hr hvr alpha h1 h2,
    roundtrip_channel _ _ hg hvg alpha h1 h2,
    roundtrip_channel _ _ hb hvb alpha h1 h2⟩

/-- Witness for the amended C3 at alpha = 1/2: original (105,105,105),
overlay (0,0,0), all-non-black mask; the composite rounds 52.5 to 53 and
unblending returns (106,106,106), within the allowed single step. -/
theorem c3_roundtrip_amended_witness :
    (1 : ℚ) / 2 ≤ 1 / 2 ∧ (1 : ℚ) / 2 ≤ 1 ∧
    withinOne ((unblend (compositeBuffer
        (WebPImage.mk [{ r := 105, g := 105, b := 105 }] 1 1)
        { r := 0, g := 0, b := 0 } (1 / 2))
        (WebPImage.mk [{ r := 255, g := 255, b := 255 }] 1 1) (1 / 2)
        (((0 : ℕ) : ℤ)) (((0 : ℕ) : ℤ)) (((0 : ℕ) : ℤ))).get_pixel 0 0)
      ((WebPImage.mk [{ r := 105, g := 105, b := 105 }] 1 1).get_pixel 0 0) :=
  ⟨by norm_num, by norm_num,
   c3_roundtrip_amended (WebPImage.mk [{ r := 105, g := 105, b := 105 }] 1 1)
     (WebPImage.mk [{ r := 255, g := 255, b := 255 }] 1 1)
     { r := 0, g := 0, b := 0 } (1 / 2) (by decide) (by decide)
     (by decide) (by decide) (by decide) (by norm_num) (by norm_num)
     (fun x y hx hy => by
        have hx0 : x = 0 := Nat.lt_one_iff.mp hx
        have hy0 : y = 0 := Nat.lt_one_iff.mp hy
        subst hx0; subst hy0
        decide)
     (by decide) (by decide)⟩

/-- Counterexample to claim C3 as stated: at alpha = 1/10 with original
(105,105,105) and overlay (0,0,0), the forward blend rounds 10.5 to the
8-bit value 11, and unblending yields 110 per channel, five steps away
from the original 105, so the claimed tolerance of one fails for small
alpha in (0, 1]. -/
theorem c3_roundtrip_counterexample :
    ¬ withinOne ((unblend (compositeBuffer
        (WebPImage.mk [{ r := 105, g := 105, b := 105 }] 1 1)
        { r := 0, g := 0, b := 0 } (1 / 10))
        (WebPImage.mk [{ r := 255, g := 255, b := 255 }] 1 1) (1 / 10)
        0 0 0).get_pixel 0 0)
      ((WebPImage.mk [{ r := 105, g := 105, b := 105 }] 1 1).get_pixel 0 0) := by
  have hcc : compositeChannel 105 0 (1 / 10) = 11 := by
    unfold compositeChannel
    rw [stdClamp_eval_of _ (by norm_num) (by norm_num)]
    rw [round_eval _ 11 (by norm_num) (by norm_num)]
    decide
  have hcomp : compositeBuffer (WebPImage.mk [{ r := 105, g := 105, b := 105 }] 1 1)
      { r := 0, g := 0, b := 0 } (1 / 10)
      = WebPImage.mk [{ r := 11, g := 11, b := 11 }] 1 1 := by
    unfold compositeBuffer
    simp only [List.map_cons, List.map_nil]
    rw [hcc]
  rw [hcomp]
  have hout : (unblend (WebPImage.mk [{ r := 11, g := 11, b := 11 }] 1 1)
      (WebPImage.mk [{ r := 255, g := 255, b := 255 }] 1 1) (1 / 10) 0 0 0).get_pixel 0 0
      = { r := 110, g := 110, b := 110 } := by
    rw [unblend_get_pixel _ _ _ _ _ _ (by decide) (by decide) (by decide)]
    unfold recoverPixel
    rw [if_neg (by decide)]
    have h11 : (WebPImage.mk [{ r := 11, g := 11, b := 11 }] 1 1).get_pixel 0 0
        = { r := 11, g := 11, b := 11 } := by decide
    simp only [unblendedPixel, h11]
    rw [show ((0 : ℤ) % 256).toNat = 0 from by decide]
    rw [Eq_eval 11 0 (1 / 10) 110 (by norm_num) (by norm_num) (by norm_num)]
    rw [toByte_eq_of 110 110 (by norm_num) (by norm_num)]
  rw [hout]
  decide

/-- Claim C5 (amended): when alpha equals 0 the unblend pass raises no
error, because no error path exists: for every input it runs the ordinary
per-pixel loop, returns a buffer with the composite dimensions, and every
in-range pixel receives the usual per-pixel computation taken at
alpha = 0 - the silent behavior the claim says should be an explicit
DegenerateAlpha failure. -/
theorem c5_alpha_zero_no_error (image mask : WebPImage) (ovr ovg ovb : ℤ)
    (hlen : image.pixels.length = image.width * image.height) :
    (unblend image mask 0 ovr ovg ovb).width = image.width ∧
    (unblend image mask 0 ovr ovg ovb).height = image.height ∧
    (unblend image mask 0 ovr ovg ovb).pixels.length = image.pixels.length ∧
    ∀ x y, x < image.width → y < image.height →
      (unblend image mask 0 ovr ovg ovb).get_pixel x y
        = recoverPixel image mask 0 ovr ovg ovb x y :=
  ⟨unblend_width image mask 0 ovr ovg ovb,
   unblend_height image mask 0 ovr ovg ovb,
   unblend_length image mask 0 ovr ovg ovb,
   fun x y hx hy => unblend_get_pixel image mask 0 ovr ovg ovb hlen hx hy⟩

/-- Witness for the amended C5 at a concrete 1 by 1 input: the pass at
alpha = 0 completes, keeps the dimensions, and computes the per-pixel
value instead of failing. -/
theorem c5_alpha_zero_no_error_witness :
    (unblend (WebPImage.mk [{ r := 200, g := 200, b := 200 }] 1 1)
        (WebPImage.mk [{ r := 255, g := 255, b := 255 }] 1 1)
        0 255 255 255).width = 1 ∧
    (unblend (WebPImage.mk [{ r := 200, g := 200, b := 200 }] 1 1)
        (WebPImage.mk [{ r := 255, g := 255, b := 255 }] 1 1)
        0 255 255 255).height = 1 ∧
    (unblend (WebPImage.mk [{ r := 200, g := 200, b := 200 }] 1 1)
        (WebPImage.mk [{ r := 255, g := 255, b := 255 }] 1 1)
        0 255 255 255).pixels.length = 1 ∧
    (unblend (WebPImage.mk [{ r := 200, g := 200, b := 200 }] 1 1)
        (WebPImage.mk [{ r := 255, g := 255, b := 255 }] 1 1)
        0 255 255 255).get_pixel 0 0
      = recoverPixel (WebPImage.mk [{ r := 200, g := 200, b := 200 }] 1 1)
        (WebPImage.mk [{ r := 255, g := 255, b := 255 }] 1 1)
        0 255 255 255 0 0 :=
  ⟨(c5_alpha_zero_no_error _ _ 255 255 255 (by decide)).1,
   (c5_alpha_zero_no_error _ _ 255 255 255 (by decide)).2.1,
   (c5_alpha_zero_no_error _ _ 255 255 255 (by decide)).2.2.1,
   (c5_alpha_zero_no_error _ _ 255 255 255 (by decide)).2.2.2 0 0
     (by decide) (by decide)⟩
